import Mathlib

/-!
Verification of the Biathlon_data repository's time codec (src/tools.py)
and results fetcher (src/biathlon_api.py), shallowly embedded in Lean.

Python strings are modelled as `List Char`; Python's built-in `int(str)`
is modelled by `pyInt` (optional surrounding ASCII whitespace, an optional
sign, then a nonempty run of ASCII digits in which single underscores may
separate digits).  `pyInt` is exact for ASCII input; CPython's `int()`
additionally accepts non-ASCII decimal digits and non-ASCII whitespace,
which are outside this model's scope, so statements about rejected
characters are made for ASCII strings only.  `str.split(sep)` for a
one-character separator is modelled by `splitOnChar`; raising
`ValueError` is modelled by `Option` (`none` = the uniform
invalid-format error).
-/

/-- The ASCII whitespace characters Python's `int` strips from both ends
of its argument. -/
def isPySpace (c : Char) : Bool :=
  c = ' ' || c = '\t' || c = '\n' || c = '\r' || c = Char.ofNat 11 || c = Char.ofNat 12

/-- One step of decimal accumulation: previous value `a`, next digit char `c`. -/
def digitStep (a : Nat) (c : Char) : Nat := 10 * a + (c.toNat - 48)

/-- The digit run of a Python integer literal, after the first digit:
digits accumulate into `acc`; a single underscore may stand between two
digits (`afterUnd` records that the previous character was an underscore,
so the next must be a digit). -/
def digitsRun : Nat → Bool → List Char → Option Nat
  | acc, false, [] => some acc
  | _, true, [] => none
  | acc, afterUnd, c :: cs =>
    if c.isDigit then digitsRun (digitStep acc c) false cs
    else if c = '_' ∧ afterUnd = false then digitsRun acc true cs
    else none

/-- A Python integer literal's digit part: a digit followed by a `digitsRun`. -/
def digitsStart : List Char → Option Nat
  | [] => none
  | c :: cs => if c.isDigit then digitsRun (c.toNat - 48) false cs else none

/-- Python `int` on an already-stripped character list: optional sign, then
the digit part. -/
def pyIntCore : List Char → Option Int
  | [] => none
  | c :: cs =>
    if c = '+' then
      match digitsStart cs with
      | some n => some (n : Int)
      | none => none
    else if c = '-' then
      match digitsStart cs with
      | some n => some (-(n : Int))
      | none => none
    else
      match digitsStart (c :: cs) with
      | some n => some (n : Int)
      | none => none

/-- Strip `isPySpace` characters from both ends. -/
def stripSpaces (l : List Char) : List Char :=
  ((l.dropWhile isPySpace).reverse.dropWhile isPySpace).reverse

/-- Python's `int(str)` on ASCII input: strip surrounding whitespace,
then sign and digits.  Exact for ASCII strings; the source's `int()`
also accepts non-ASCII decimal digits and whitespace, not modelled here. -/
def pyInt (l : List Char) : Option Int := pyIntCore (stripSpaces l)

/-- Python's `str.split(sep)` for a single-character separator: always at
least one (possibly empty) part; `n` separators give `n+1` parts. -/
def splitOnChar (sep : Char) : List Char → List (List Char)
  | [] => [[]]
  | c :: cs =>
    let r := splitOnChar sep cs
    if c = sep then [] :: r
    else
      match r with
      | h :: t => (c :: h) :: t
      | [] => [[c]]

/-- Re-join the parts of a split with the separator between them (the
left inverse of `splitOnChar`, used to reason about membership). -/
def joinParts (sep : Char) : List (List Char) → List Char
  | [] => []
  | [p] => p
  | p :: q :: ps => p ++ sep :: joinParts sep (q :: ps)

/-- The final `seconds.tenth` segment of src/tools.py's `time_conversion`:
`seconds_str, tenth_str = seconds_tenth_str.split('.')` (exactly two parts
or ValueError) followed by the two `int` conversions. -/
def parseSecTenth (st : List Char) : Option (Int × Int) :=
  match splitOnChar '.' st with
  | [ss, ts] =>
    match pyInt ss, pyInt ts with
    | some sec, some t => some (sec, t)
    | _, _ => none
  | _ => none

/-- The range checks and final sum of src/tools.py lines 55-63. -/
def checkRanges (hours minutes seconds tenth : Int) : Option Int :=
  if seconds < 0 ∨ 60 ≤ seconds ∨ tenth < 0 ∨ 10 ≤ tenth then none
  else if minutes < 0 ∨ 60 ≤ minutes then none
  else if hours < 0 then none
  else some (hours * 36000 + minutes * 600 + seconds * 10 + tenth)

/-- Parse the trailing `seconds.tenth` segment, then run the range checks. -/
def withSecTenth (hours minutes : Int) (st : List Char) : Option Int :=
  match parseSecTenth st with
  | some (sec, t) => checkRanges hours minutes sec t
  | none => none

/-- src/tools.py `time_conversion`: split on `:` into 1, 2 or 3 segments
(hours and minutes defaulting to 0), parse each segment with Python `int`,
check ranges, and return hours*36000 + minutes*600 + seconds*10 + tenth;
`none` models the uniform ValueError of lines 65-66. -/
def time_conversion (s : List Char) : Option Int :=
  match splitOnChar ':' s with
  | [hs, ms, st] =>
    match pyInt hs, pyInt ms with
    | some h, some m => withSecTenth h m st
    | _, _ => none
  | [ms, st] =>
    match pyInt ms with
    | some m => withSecTenth 0 m st
    | none => none
  | [st] => withSecTenth 0 0 st
  | _ => none

/-- Decimal rendering of a natural number, fuel-indexed so that the
recursion is structural (any fuel above the value is enough). -/
def natRenderAux : Nat → Nat → List Char → List Char
  | 0, _, acc => acc
  | fuel + 1, n, acc =>
    if n < 10 then Char.ofNat (48 + n) :: acc
    else natRenderAux fuel (n / 10) (Char.ofNat (48 + n % 10) :: acc)

/-- Python's `str(n)` / `f-string` rendering of a non-negative integer:
decimal digits, no sign, no leading zeros (except "0" itself). -/
def natRender (n : Nat) : List Char := natRenderAux (n + 1) n []

/-- Python's `f-string` field `{seconds:02d}` for 0 <= seconds < 100:
zero-pad to two characters. -/
def padSeconds (s : Nat) : List Char :=
  if s < 10 then '0' :: natRender s else natRender s

/-- src/tools.py `time_conversion2`: minutes = n // 600, seconds =
(n % 600) // 10, tenth = n % 10, rendered as "M:SS.T" when minutes > 0
and "S.T" otherwise.  The source takes a Python int; the spec declares
negative input undefined behaviour, so the model takes a Nat. -/
def time_conversion2 (total_time_in_tenth : Nat) : List Char :=
  let minutes := total_time_in_tenth / 600
  let seconds := total_time_in_tenth % 600 / 10
  let tenth := total_time_in_tenth % 10
  if 0 < minutes then
    natRender minutes ++ ':' :: (padSeconds seconds ++ '.' :: natRender tenth)
  else
    natRender seconds ++ '.' :: natRender tenth

/-- The canonical rendering of a (minutes, seconds, tenths) triple: the
exact shape `time_conversion2` emits. -/
def canonicalRender (m sec t : Nat) : List Char :=
  if 0 < m then natRender m ++ ':' :: (padSeconds sec ++ '.' :: natRender t)
  else natRender sec ++ '.' :: natRender t

/-- A canonical time string (spec glossary: minimal-segment form, no
superfluous leading zero segments, canonical digit rendering): the shape
"M:SS.T" with M > 0, or "S.T", with in-range seconds and tenths. -/
def IsCanonical (s : List Char) : Prop :=
  ∃ m sec t : Nat, sec < 60 ∧ t < 10 ∧ s = canonicalRender m sec t

/-- The spec-worded validity conditions for the final segment (spec 4.1):
it splits on '.' into exactly two integer parts, seconds in [0,59],
tenths in [0,9], and the (possibly defaulted) minutes in [0,59] and
hours >= 0. -/
def secTenthOk (hours minutes : Int) (st : List Char) : Bool :=
  match splitOnChar '.' st with
  | [ss, ts] =>
    match pyInt ss, pyInt ts with
    | some sec, some t =>
      decide (0 ≤ sec) && decide (sec ≤ 59) && decide (0 ≤ t) && decide (t ≤ 9) &&
        decide (0 ≤ minutes) && decide (minutes ≤ 59) && decide (0 ≤ hours)
    | _, _ => false
  | _ => false

/-- Validity of a time string as the spec words it (section 4.1): the
colon-split has 1, 2 or 3 segments, every segment is an integer, and all
range checks pass. -/
def specValid (s : List Char) : Bool :=
  match splitOnChar ':' s with
  | [hs, ms, st] =>
    match pyInt hs, pyInt ms with
    | some h, some m => secTenthOk h m st
    | _, _ => false
  | [ms, st] =>
    match pyInt ms with
    | some m => secTenthOk 0 m st
    | none => false
  | [st] => secTenthOk 0 0 st
  | _ => false

/-- The ASCII characters `time_conversion` can accept somewhere in its
input: the separators, plus everything Python `int` tolerates inside an
ASCII segment (digits, sign characters, underscores, surrounding
whitespace).  The source additionally accepts non-ASCII digits and
whitespace via `int()`; those lie outside this ASCII-scoped set and
outside the model. -/
def extendedChar (c : Char) : Bool :=
  c.isDigit || c = ':' || c = '.' || c = '+' || c = '-' || c = '_' || isPySpace c

/-- A Lean string literal as the character list the model works on. -/
def pyStr (s : String) : List Char := s.data

/-- The fixed host and base path shared by the four URL builders of
src/biathlon_api.py. -/
def apiBase : List Char := pyStr "https://www.biathlonresults.com/modules/sportapi/api/"

/-- src/biathlon_api.py `get_url_analytics`: the analytics endpoint URL,
race id and type id concatenated unescaped. -/
def get_url_analytics (raceId typeId : List Char) : List Char :=
  pyStr "https://www.biathlonresults.com/modules/sportapi/api/AnalyticResults?RaceId="
    ++ raceId ++ pyStr "&TypeId=" ++ typeId

/-- src/biathlon_api.py `get_url_results`: the race results endpoint URL. -/
def get_url_results (raceId : List Char) : List Char :=
  pyStr "https://www.biathlonresults.com/modules/sportapi/api/Results?RT=385698&RaceId="
    ++ raceId

/-- src/biathlon_api.py `get_url_calendar`: the season calendar endpoint URL. -/
def get_url_calendar (season : List Char) : List Char :=
  pyStr "https://www.biathlonresults.com/modules/sportapi/api/Events?RT=385698&SeasonId="
    ++ season ++ pyStr "&Level=-1"

/-- src/biathlon_api.py `get_url_event`: the event competitions endpoint URL. -/
def get_url_event (eventId : List Char) : List Char :=
  pyStr "https://www.biathlonresults.com/modules/sportapi/api/Competitions?RT=385698&EventId="
    ++ eventId

/-- Whether `p` is a prefix of `l`, character by character. -/
def beginsWith : List Char → List Char → Bool
  | [], _ => true
  | _ :: _, [] => false
  | p :: ps, c :: cs => p = c && beginsWith ps cs

/-- Whether `pat` occurs contiguously inside `l`. -/
def hasSubstr (pat : List Char) : List Char → Bool
  | [] => beginsWith pat []
  | c :: cs => beginsWith pat (c :: cs) || hasSubstr pat cs

/-- The two failure kinds of src/biathlon_api.py `get_json`: a re-raised
RequestException (transport failure or bad HTTP status) and the ValueError
for a body that is not valid JSON. -/
inductive FetchError where
  | requestFailed : FetchError
  | invalidResponse : FetchError
deriving DecidableEq

/-- Modelled from the spec: the observable outcome of the external
`requests.get` call that src/biathlon_api.py `get_json` makes (the
requests library is a third-party collaborator, not part of this
repository).  Either the GET fails at the transport level, or a response
arrives with an HTTP status and a body whose JSON decoding is abstracted
as `Option J` (`some j` = the decoded value, `none` = not valid JSON). -/
inductive GetOutcome (J : Type) where
  | failure : GetOutcome J
  | response (status : Nat) (body : Option J) : GetOutcome J
deriving DecidableEq

/-- Whether an HTTP status is a success (2xx) status; per the spec,
`raise_for_status` raises exactly on the non-2xx statuses. -/
def is2xx (status : Nat) : Bool := 200 ≤ status && status < 300

/-- src/biathlon_api.py `get_json` over the `GetOutcome` transport model:
a transport failure or a non-2xx status is re-raised as `requestFailed`
(the try block runs `raise_for_status` before `answer.json()`), a 2xx
response whose body is not JSON raises `invalidResponse`, and otherwise
the decoded JSON value is returned unchanged. -/
def get_json {J : Type} : GetOutcome J → Except FetchError J
  | .failure => .error .requestFailed
  | .response status body =>
    if is2xx status then
      match body with
      | some j => .ok j
      | none => .error .invalidResponse
    else .error .requestFailed

/-! ### Facts about digit characters -/

theorem dchar_spec : ∀ d, d < 10 →
    (Char.ofNat (48 + d)).isDigit = true ∧ (Char.ofNat (48 + d)).toNat = 48 + d := by
  decide

theorem digit_char_props (c : Char) (h : c.isDigit = true) :
    isPySpace c = false ∧ c ≠ '+' ∧ c ≠ '-' ∧ c ≠ ':' ∧ c ≠ '.' := by
  have hsp : isPySpace c = false := by
    rcases hb : isPySpace c
    · rfl
    · exfalso
      simp only [isPySpace, Bool.or_eq_true, decide_eq_true_eq] at hb
      rcases hb with ((((rfl | rfl) | rfl) | rfl) | rfl) | rfl <;> exact absurd h (by decide)
  refine ⟨hsp, ?_, ?_, ?_, ?_⟩ <;> (rintro rfl; exact absurd h (by decide))

/-! ### Decimal rendering -/

theorem natRenderAux_eq (n : Nat) : ∀ f acc, n < f → natRenderAux f n acc = natRender n ++ acc := by
  induction n using Nat.strong_induction_on with
  | _ n ih =>
    intro f acc hf
    obtain ⟨f, rfl⟩ : ∃ g, f = g + 1 := ⟨f - 1, by omega⟩
    by_cases h10 : n < 10
    · simp [natRenderAux, natRender, h10]
    · have h1 : natRenderAux (f + 1) n acc
          = natRenderAux f (n / 10) (Char.ofNat (48 + n % 10) :: acc) := by
        simp [natRenderAux, h10]
      have h2 : natRender n = natRender (n / 10) ++ [Char.ofNat (48 + n % 10)] := by
        have h3 : natRender n = natRenderAux n (n / 10) [Char.ofNat (48 + n % 10)] := by
          simp [natRender, natRenderAux, h10]
        rw [h3, ih (n / 10) (by omega) n _ (by omega)]
      rw [h1, ih (n / 10) (by omega) f _ (by omega), h2, List.append_assoc]
      rfl

theorem natRender_lt (n : Nat) (h : n < 10) : natRender n = [Char.ofNat (48 + n)] := by
  simp [natRender, natRenderAux, h]

theorem natRender_ge (n : Nat) (h : 10 ≤ n) :
    natRender n = natRender (n / 10) ++ [Char.ofNat (48 + n % 10)] := by
  have h3 : natRender n = natRenderAux n (n / 10) [Char.ofNat (48 + n % 10)] := by
    simp [natRender, natRenderAux, Nat.not_lt.mpr h]
  rw [h3, natRenderAux_eq (n / 10) n _ (by omega)]

theorem natRender_digits (n : Nat) : ∀ c ∈ natRender n, c.isDigit = true := by
  induction n using Nat.strong_induction_on with
  | _ n ih =>
    by_cases h10 : n < 10
    · rw [natRender_lt n h10]
      intro c hc
      rw [List.mem_singleton] at hc
      subst hc
      exact (dchar_spec n h10).1
    · rw [natRender_ge n (by omega)]
      intro c hc
      rcases List.mem_append.mp hc with hc | hc
      · exact ih (n / 10) (by omega) c hc
      · rw [List.mem_singleton] at hc
        subst hc
        exact (dchar_spec (n % 10) (by omega)).1

theorem natRender_ne_nil (n : Nat) : natRender n ≠ [] := by
  by_cases h10 : n < 10
  · rw [natRender_lt n h10]; simp
  · rw [natRender_ge n (by omega)]; simp

theorem foldl_digitStep_natRender (n : Nat) :
    ∀ a, List.foldl digitStep a (natRender n) = a * 10 ^ (natRender n).length + n := by
  induction n using Nat.strong_induction_on with
  | _ n ih =>
    intro a
    by_cases h10 : n < 10
    · rw [natRender_lt n h10]
      simp [digitStep, (dchar_spec n h10).2]
      omega
    · rw [natRender_ge n (by omega), List.foldl_append, ih (n / 10) (by omega) a]
      simp [digitStep, (dchar_spec (n % 10) (by omega)).2, List.length_append, pow_succ]
      ring_nf
      omega

/-! ### Parsing rendered digits back -/

theorem digitsRun_all_digits :
    ∀ (l : List Char) (a : Nat), (∀ c ∈ l, c.isDigit = true) →
      digitsRun a false l = some (List.foldl digitStep a l) := by
  intro l
  induction l with
  | nil => intro a _; rfl
  | cons c cs ih =>
    intro a hd
    have hc : c.isDigit = true := hd c (List.mem_cons_self c cs)
    simp only [digitsRun, hc, if_pos, List.foldl_cons]
    exact ih (digitStep a c) fun x hx => hd x (List.mem_cons_of_mem c hx)

theorem digitsStart_all_digits (l : List Char) (hne : l ≠ [])
    (hd : ∀ c ∈ l, c.isDigit = true) :
    digitsStart l = some (List.foldl digitStep 0 l) := by
  match l, hne with
  | c :: cs, _ =>
    have hc : c.isDigit = true := hd c (List.mem_cons_self c cs)
    simp only [digitsStart, hc, if_pos, List.foldl_cons]
    have : digitStep 0 c = c.toNat - 48 := by simp [digitStep]
    rw [← this, digitsRun_all_digits cs (digitStep 0 c)
      fun x hx => hd x (List.mem_cons_of_mem c hx)]

theorem stripSpaces_of_no_space (l : List Char) (h : ∀ c ∈ l, isPySpace c = false) :
    stripSpaces l = l := by
  have drop1 : ∀ m : List Char, (∀ c ∈ m, isPySpace c = false) → m.dropWhile isPySpace = m := by
    intro m hm
    match m with
    | [] => rfl
    | x :: xs => simp [List.dropWhile_cons, hm x (List.mem_cons_self x xs)]
  unfold stripSpaces
  rw [drop1 l h, drop1 l.reverse fun c hc => h c (List.mem_reverse.mp hc), List.reverse_reverse]

theorem pyInt_all_digits (l : List Char) (hne : l ≠ [])
    (hd : ∀ c ∈ l, c.isDigit = true) :
    pyInt l = some ((List.foldl digitStep 0 l : Nat) : Int) := by
  unfold pyInt
  rw [stripSpaces_of_no_space l fun c hc => (digit_char_props c (hd c hc)).1]
  match l, hne, hd with
  | c :: cs, _, hd =>
    have hc : c.isDigit = true := hd c (List.mem_cons_self c cs)
    have hprops := digit_char_props c hc
    simp only [pyIntCore, hprops.2.1, hprops.2.2.1, if_neg, if_false]
    rw [digitsStart_all_digits (c :: cs) (by simp) hd]

theorem pyInt_natRender (n : Nat) : pyInt (natRender n) = some (n : Int) := by
  rw [pyInt_all_digits (natRender n) (natRender_ne_nil n) (natRender_digits n),
    foldl_digitStep_natRender n 0]
  norm_num

theorem padSeconds_digits (s : Nat) : ∀ c ∈ padSeconds s, c.isDigit = true := by
  unfold padSeconds
  split
  · intro c hc
    rcases List.mem_cons.mp hc with rfl | hc
    · decide
    · exact natRender_digits s c hc
  · exact natRender_digits s

theorem pyInt_padSeconds (s : Nat) : pyInt (padSeconds s) = some (s : Int) := by
  unfold padSeconds
  split
  · have hmem : ∀ c ∈ '0' :: natRender s, c.isDigit = true := by
      intro c hc
      rcases List.mem_cons.mp hc with rfl | hc
      · decide
      · exact natRender_digits s c hc
    rw [pyInt_all_digits ('0' :: natRender s) (by simp) hmem]
    have h0 : digitStep 0 '0' = 0 := by decide
    rw [List.foldl_cons, h0, foldl_digitStep_natRender s 0]
    norm_num
  · exact pyInt_natRender s

/-! ### Splitting on a separator -/

theorem splitOnChar_ne_nil (sep : Char) (l : List Char) : splitOnChar sep l ≠ [] := by
  induction l with
  | nil => simp [splitOnChar]
  | cons c cs ih =>
    simp only [splitOnChar]
    split
    · simp
    · split <;> simp

theorem splitOnChar_no_sep (sep : Char) (l : List Char) (h : ∀ c ∈ l, c ≠ sep) :
    splitOnChar sep l = [l] := by
  induction l with
  | nil => rfl
  | cons c cs ih =>
    simp only [splitOnChar]
    rw [if_neg (h c (List.mem_cons_self c cs)), ih fun x hx => h x (List.mem_cons_of_mem c hx)]

theorem splitOnChar_append (sep : Char) (A B : List Char) (h : ∀ c ∈ A, c ≠ sep) :
    splitOnChar sep (A ++ sep :: B) = A :: splitOnChar sep B := by
  induction A with
  | nil => simp [splitOnChar]
  | cons a A ih =>
    have ih2 := ih fun x hx => h x (List.mem_cons_of_mem a hx)
    simp only [List.cons_append, splitOnChar]
    rw [if_neg (h a (List.mem_cons_self a A)),
      show splitOnChar sep (A.append (sep :: B)) = A :: splitOnChar sep B from ih2]

theorem joinParts_splitOnChar (sep : Char) (l : List Char) :
    joinParts sep (splitOnChar sep l) = l := by
  induction l with
  | nil => rfl
  | cons c cs ih =>
    obtain ⟨h, t, hr⟩ : ∃ h t, splitOnChar sep cs = h :: t := by
      rcases hr : splitOnChar sep cs with _ | ⟨h, t⟩
      · exact absurd hr (splitOnChar_ne_nil sep cs)
      · exact ⟨h, t, rfl⟩
    rw [hr] at ih
    simp only [splitOnChar, hr]
    split
    · rename_i hceq
      subst hceq
      simpa [joinParts] using ih
    · cases t with
      | nil => simpa [joinParts] using congrArg (c :: ·) ih
      | cons q t2 => simpa [joinParts] using congrArg (c :: ·) ih

theorem mem_joinParts (sep : Char) (ps : List (List Char)) (c : Char)
    (hc : c ∈ joinParts sep ps) : c = sep ∨ ∃ p ∈ ps, c ∈ p := by
  induction ps with
  | nil => simp [joinParts] at hc
  | cons p ps ih =>
    cases ps with
    | nil =>
      simp only [joinParts] at hc
      exact Or.inr ⟨p, List.mem_cons_self p [], hc⟩
    | cons q ps2 =>
      simp only [joinParts] at hc
      rcases List.mem_append.mp hc with hc | hc
      · exact Or.inr ⟨p, List.mem_cons_self p _, hc⟩
      · rcases List.mem_cons.mp hc with rfl | hc
        · exact Or.inl rfl
        · rcases ih hc with h | ⟨r, hr, hcr⟩
          · exact Or.inl h
          · exact Or.inr ⟨r, List.mem_cons_of_mem p hr, hcr⟩

theorem mem_splitOnChar (sep : Char) (l : List Char) (c : Char) (hc : c ∈ l) :
    c = sep ∨ ∃ p ∈ splitOnChar sep l, c ∈ p := by
  apply mem_joinParts
  rw [joinParts_splitOnChar]
  exact hc

/-! ### Characters a successful parse can contain -/

theorem digitsRun_chars :
    ∀ (l : List Char) (a : Nat) (u : Bool) (v : Nat), digitsRun a u l = some v →
      ∀ c ∈ l, c.isDigit = true ∨ c = '_' := by
  intro l
  induction l with
  | nil => intro a u v _ c hc; simp at hc
  | cons x xs ih =>
    intro a u v hv c hc
    simp only [digitsRun] at hv
    rcases List.mem_cons.mp hc with rfl | hc
    · by_cases hx : c.isDigit = true
      · exact Or.inl hx
      · rw [if_neg (by simp [hx])] at hv
        split at hv
        · rename_i hcond
          exact Or.inr hcond.1
        · exact absurd hv (by simp)
    · by_cases hx : x.isDigit = true
      · rw [if_pos hx] at hv
        exact ih _ _ _ hv c hc
      · rw [if_neg (by simp [hx])] at hv
        split at hv
        · exact ih _ _ _ hv c hc
        · exact absurd hv (by simp)

theorem digitsStart_chars (l : List Char) (v : Nat) (hv : digitsStart l = some v) :
    ∀ c ∈ l, c.isDigit = true ∨ c = '_' := by
  match l with
  | [] => intro c hc; simp at hc
  | x :: xs =>
    intro c hc
    simp only [digitsStart] at hv
    by_cases hx : x.isDigit = true
    · rw [if_pos hx] at hv
      rcases List.mem_cons.mp hc with rfl | hc
      · exact Or.inl hx
      · exact digitsRun_chars xs _ _ _ hv c hc
    · rw [if_neg (by simp [hx])] at hv
      exact absurd hv (by simp)

theorem pyIntCore_chars (l : List Char) (v : Int) (hv : pyIntCore l = some v) :
    ∀ c ∈ l, c.isDigit = true ∨ c = '+' ∨ c = '-' ∨ c = '_' := by
  match l with
  | [] => intro c hc; simp at hc
  | x :: xs =>
    intro c hc
    simp only [pyIntCore] at hv
    by_cases hp : x = '+'
    · rw [if_pos hp] at hv
      rcases hds : digitsStart xs with _ | n
      · rw [hds] at hv; exact absurd hv (by simp)
      rw [hds] at hv
      rcases List.mem_cons.mp hc with rfl | hc
      · exact Or.inr (Or.inl hp)
      · rcases digitsStart_chars xs n hds c hc with h | h
        · exact Or.inl h
        · exact Or.inr (Or.inr (Or.inr h))
    · rw [if_neg hp] at hv
      by_cases hm : x = '-'
      · rw [if_pos hm] at hv
        rcases hds : digitsStart xs with _ | n
        · rw [hds] at hv; exact absurd hv (by simp)
        rw [hds] at hv
        rcases List.mem_cons.mp hc with rfl | hc
        · exact Or.inr (Or.inr (Or.inl hm))
        · rcases digitsStart_chars xs n hds c hc with h | h
          · exact Or.inl h
          · exact Or.inr (Or.inr (Or.inr h))
      · rw [if_neg hm] at hv
        rcases hds : digitsStart (x :: xs) with _ | n
        · rw [hds] at hv; exact absurd hv (by simp)
        rw [hds] at hv
        rcases digitsStart_chars (x :: xs) n hds c hc with h | h
        · exact Or.inl h
        · exact Or.inr (Or.inr (Or.inr h))

theorem mem_dropWhile (p : Char → Bool) (l : List Char) (c : Char) (hc : c ∈ l) :
    p c = true ∨ c ∈ l.dropWhile p := by
  induction l with
  | nil => simp at hc
  | cons x xs ih =>
    rw [List.dropWhile_cons]
    by_cases hx : p x = true
    · rw [if_pos hx]
      rcases List.mem_cons.mp hc with rfl | hc
      · exact Or.inl hx
      · exact ih hc
    · rw [if_neg hx]
      exact Or.inr hc

theorem mem_stripSpaces (l : List Char) (c : Char) (hc : c ∈ l) :
    isPySpace c = true ∨ c ∈ stripSpaces l := by
  unfold stripSpaces
  rcases mem_dropWhile isPySpace l c hc with h | h
  · exact Or.inl h
  · rcases mem_dropWhile isPySpace (l.dropWhile isPySpace).reverse c
      (List.mem_reverse.mpr h) with h2 | h2
    · exact Or.inl h2
    · exact Or.inr (List.mem_reverse.mpr h2)

theorem pyInt_chars (l : List Char) (v : Int) (hv : pyInt l = some v) :
    ∀ c ∈ l, isPySpace c = true ∨ c.isDigit = true ∨ c = '+' ∨ c = '-' ∨ c = '_' := by
  intro c hc
  rcases mem_stripSpaces l c hc with h | h
  · exact Or.inl h
  · exact Or.inr (pyIntCore_chars (stripSpaces l) v hv c h)

/-! ### Inversion of a successful parse -/

theorem checkRanges_some_inv (hh m sec t v : Int) (hv : checkRanges hh m sec t = some v) :
    0 ≤ hh ∧ 0 ≤ m ∧ m < 60 ∧ 0 ≤ sec ∧ sec < 60 ∧ 0 ≤ t ∧ t < 10 ∧
      v = hh * 36000 + m * 600 + sec * 10 + t := by
  unfold checkRanges at hv
  split_ifs at hv with h1 h2 h3
  simp at hv
  omega

theorem checkRanges_none_iff (hh m sec t : Int) :
    checkRanges hh m sec t = none ↔
      ¬(0 ≤ sec ∧ sec ≤ 59 ∧ 0 ≤ t ∧ t ≤ 9 ∧ 0 ≤ m ∧ m ≤ 59 ∧ 0 ≤ hh) := by
  unfold checkRanges
  split_ifs with h1 h2 h3 <;> simp <;> omega

theorem parseSecTenth_some_inv (st : List Char) (sec t : Int)
    (h : parseSecTenth st = some (sec, t)) :
    ∃ ss ts, splitOnChar '.' st = [ss, ts] ∧ pyInt ss = some sec ∧ pyInt ts = some t := by
  unfold parseSecTenth at h
  split at h
  · rename_i ss ts heq
    split at h
    · rename_i sv tv ha hb
      have hst := Option.some.inj h
      have h1 : sv = sec := congrArg Prod.fst hst
      have h2 : tv = t := congrArg Prod.snd hst
      subst h1
      subst h2
      exact ⟨ss, ts, heq, ha, hb⟩
    · exact absurd h (by simp)
  · exact absurd h (by simp)

theorem withSecTenth_some_inv (hh m : Int) (st : List Char) (v : Int)
    (hv : withSecTenth hh m st = some v) :
    ∃ ss ts, ∃ sec t : Int, splitOnChar '.' st = [ss, ts] ∧
      pyInt ss = some sec ∧ pyInt ts = some t ∧
      0 ≤ hh ∧ 0 ≤ m ∧ m < 60 ∧ 0 ≤ sec ∧ sec < 60 ∧ 0 ≤ t ∧ t < 10 ∧
      v = hh * 36000 + m * 600 + sec * 10 + t := by
  unfold withSecTenth at hv
  split at hv
  · rename_i p sec t heq
    obtain ⟨ss, ts, hsp, hss, hts⟩ := parseSecTenth_some_inv st sec t heq
    obtain ⟨q1, q2, q3, q4, q5, q6, q7, q8⟩ := checkRanges_some_inv hh m sec t v hv
    exact ⟨ss, ts, sec, t, hsp, hss, hts, q1, q2, q3, q4, q5, q6, q7, q8⟩
  · exact absurd hv (by simp)

theorem time_conversion_some_inv (s : List Char) (v : Int)
    (h : time_conversion s = some v) :
    ∃ hh m : Int, ∃ st : List Char,
      ((∃ hs ms, splitOnChar ':' s = [hs, ms, st] ∧ pyInt hs = some hh ∧ pyInt ms = some m) ∨
        (∃ ms, splitOnChar ':' s = [ms, st] ∧ hh = 0 ∧ pyInt ms = some m) ∨
        (splitOnChar ':' s = [st] ∧ hh = 0 ∧ m = 0)) ∧
      withSecTenth hh m st = some v := by
  unfold time_conversion at h
  split at h
  · rename_i hs ms st heq
    split at h
    · rename_i hh m ha hb
      exact ⟨hh, m, st, Or.inl ⟨hs, ms, heq, ha, hb⟩, h⟩
    · exact absurd h (by simp)
  · rename_i ms st heq
    split at h
    · rename_i m ha
      exact ⟨0, m, st, Or.inr (Or.inl ⟨ms, heq, rfl, ha⟩), h⟩
    · exact absurd h (by simp)
  · rename_i st heq
    exact ⟨0, 0, st, Or.inr (Or.inr ⟨heq, rfl, rfl⟩), h⟩
  · exact absurd h (by simp)

/-! ### The failure condition, as the spec words it -/

theorem withSecTenth_none_iff (hh m : Int) (st : List Char) :
    withSecTenth hh m st = none ↔ secTenthOk hh m st = false := by
  unfold withSecTenth parseSecTenth secTenthOk
  rcases hsp : splitOnChar '.' st with _ | ⟨a, _ | ⟨b, _ | ⟨c, r⟩⟩⟩
  · simp
  · simp
  · rcases ha : pyInt a with _ | sec <;> rcases hb : pyInt b with _ | t
    · simp [ha, hb]
    · simp [ha, hb]
    · simp [ha, hb]
    · simp [ha, hb, checkRanges_none_iff]
  · simp

theorem tc_none_iff_specValid_false (s : List Char) :
    time_conversion s = none ↔ specValid s = false := by
  unfold time_conversion specValid
  rcases hp : splitOnChar ':' s with _ | ⟨a, _ | ⟨b, _ | ⟨c, _ | ⟨d, r⟩⟩⟩⟩
  · simp
  · exact withSecTenth_none_iff 0 0 a
  · rcases ha : pyInt a with _ | m
    · simp [ha]
    · simp only [ha]
      exact withSecTenth_none_iff 0 m b
  · rcases ha : pyInt a with _ | hh <;> rcases hb : pyInt b with _ | m
    · simp [ha, hb]
    · simp [ha, hb]
    · simp [ha, hb]
    · simp only [ha, hb]
      exact withSecTenth_none_iff hh m c
  · simp

/-! ### Parsing the canonical rendering -/

theorem tc_of_split1 (s st : List Char) (h : splitOnChar ':' s = [st]) :
    time_conversion s = withSecTenth 0 0 st := by
  unfold time_conversion
  rw [h]

theorem tc_of_split2 (s ms st : List Char) (h : splitOnChar ':' s = [ms, st])
    (m : Int) (hm : pyInt ms = some m) :
    time_conversion s = withSecTenth 0 m st := by
  unfold time_conversion
  rw [h]
  show (match pyInt ms with
    | some m => withSecTenth 0 m st
    | none => none) = withSecTenth 0 m st
  rw [hm]

theorem wst_of_split (st ss ts : List Char) (h : splitOnChar '.' st = [ss, ts])
    (sec t : Int) (hss : pyInt ss = some sec) (hts : pyInt ts = some t) (hh m : Int) :
    withSecTenth hh m st = checkRanges hh m sec t := by
  unfold withSecTenth parseSecTenth
  rw [h]
  show (match (match pyInt ss, pyInt ts with
      | some sec, some t => some (sec, t)
      | _, _ => none) with
    | some (sec, t) => checkRanges hh m sec t
    | none => none) = checkRanges hh m sec t
  rw [hss, hts]

theorem checkRanges_eval (hh m sec t : Int) (h1 : 0 ≤ sec) (h2 : sec < 60)
    (h3 : 0 ≤ t) (h4 : t < 10) (h5 : 0 ≤ m) (h6 : 0 ≤ hh) :
    checkRanges hh m sec t =
      if m < 60 then some (hh * 36000 + m * 600 + sec * 10 + t) else none := by
  unfold checkRanges
  by_cases hm : m < 60
  · rw [if_neg (by omega), if_neg (by omega), if_neg (by omega), if_pos hm]
  · rw [if_neg (by omega), if_pos (by omega), if_neg hm]

theorem tc_canonicalRender (m sec t : Nat) (hsec : sec < 60) (ht : t < 10) :
    time_conversion (canonicalRender m sec t) =
      if (m : Int) < 60 then some ((m : Int) * 600 + (sec : Int) * 10 + (t : Int))
      else none := by
  by_cases hm : 0 < m
  · have hcr : canonicalRender m sec t
        = natRender m ++ ':' :: (padSeconds sec ++ '.' :: natRender t) := by
      unfold canonicalRender
      rw [if_pos hm]
    have hB : ∀ c ∈ padSeconds sec ++ '.' :: natRender t, c ≠ ':' := by
      intro c hc
      rcases List.mem_append.mp hc with hc | hc
      · exact (digit_char_props c (padSeconds_digits sec c hc)).2.2.2.1
      · rcases List.mem_cons.mp hc with rfl | hc
        · decide
        · exact (digit_char_props c (natRender_digits t c hc)).2.2.2.1
    have hsplit : splitOnChar ':' (canonicalRender m sec t)
        = [natRender m, padSeconds sec ++ '.' :: natRender t] := by
      rw [hcr, splitOnChar_append ':' _ _
        (fun c hc => (digit_char_props c (natRender_digits m c hc)).2.2.2.1),
        splitOnChar_no_sep ':' _ hB]
    have hsplit2 : splitOnChar '.' (padSeconds sec ++ '.' :: natRender t)
        = [padSeconds sec, natRender t] := by
      rw [splitOnChar_append '.' _ _
        (fun c hc => (digit_char_props c (padSeconds_digits sec c hc)).2.2.2.2),
        splitOnChar_no_sep '.' _
        (fun c hc => (digit_char_props c (natRender_digits t c hc)).2.2.2.2)]
    rw [tc_of_split2 _ _ _ hsplit (m : Int) (pyInt_natRender m),
      wst_of_split _ _ _ hsplit2 _ _ (pyInt_padSeconds sec) (pyInt_natRender t) 0 (m : Int),
      checkRanges_eval 0 (m : Int) sec t (by omega) (by omega) (by omega) (by omega)
        (by omega) (by omega)]
    norm_num
  · have hm0 : m = 0 := by omega
    subst hm0
    have hcr : canonicalRender 0 sec t = natRender sec ++ '.' :: natRender t := by
      unfold canonicalRender
      rw [if_neg (by omega)]
    have hsplit : splitOnChar ':' (canonicalRender 0 sec t)
        = [natRender sec ++ '.' :: natRender t] := by
      rw [hcr]
      apply splitOnChar_no_sep
      intro c hc
      rcases List.mem_append.mp hc with hc | hc
      · exact (digit_char_props c (natRender_digits sec c hc)).2.2.2.1
      · rcases List.mem_cons.mp hc with rfl | hc
        · decide
        · exact (digit_char_props c (natRender_digits t c hc)).2.2.2.1
    have hsplit2 : splitOnChar '.' (natRender sec ++ '.' :: natRender t)
        = [natRender sec, natRender t] := by
      rw [splitOnChar_append '.' _ _
        (fun c hc => (digit_char_props c (natRender_digits sec c hc)).2.2.2.2),
        splitOnChar_no_sep '.' _
        (fun c hc => (digit_char_props c (natRender_digits t c hc)).2.2.2.2)]
    rw [tc_of_split1 _ _ hsplit,
      wst_of_split _ _ _ hsplit2 _ _ (pyInt_natRender sec) (pyInt_natRender t) 0 0,
      checkRanges_eval 0 0 sec t (by omega) (by omega) (by omega) (by omega)
        (by omega) (by omega)]
    norm_num

theorem time_conversion2_eq_canonicalRender (n : Nat) :
    time_conversion2 n = canonicalRender (n / 600) (n % 600 / 10) (n % 10) := rfl

/-! ### Characters of an accepted time string -/

theorem time_conversion_chars (s : List Char) (v : Int) (h : time_conversion s = some v) :
    ∀ c ∈ s, extendedChar c = true := by
  obtain ⟨hh, m, st, hcase, hwst⟩ := time_conversion_some_inv s v h
  obtain ⟨ss, ts, sec, t, hsp, hss, hts, -, -, -, -, -, -, -, -⟩ :=
    withSecTenth_some_inv hh m st v hwst
  have seg : ∀ (l : List Char) (w : Int), pyInt l = some w →
      ∀ c ∈ l, extendedChar c = true := by
    intro l w hw c hc
    rcases pyInt_chars l w hw c hc with h | h | h | h | h <;> simp [extendedChar, h]
  have hst : ∀ c ∈ st, extendedChar c = true := by
    intro c hc
    have hc2 : c ∈ joinParts '.' (splitOnChar '.' st) := by
      rw [joinParts_splitOnChar]
      exact hc
    rcases mem_joinParts '.' _ c hc2 with rfl | ⟨p, hp, hcp⟩
    · simp [extendedChar]
    · rw [hsp] at hp
      rcases List.mem_cons.mp hp with rfl | hp
      · exact seg _ _ hss c hcp
      rcases List.mem_cons.mp hp with rfl | hp
      · exact seg _ _ hts c hcp
      simp at hp
  intro c hc
  have hc2 : c ∈ joinParts ':' (splitOnChar ':' s) := by
    rw [joinParts_splitOnChar]
    exact hc
  rcases mem_joinParts ':' _ c hc2 with rfl | ⟨p, hp, hcp⟩
  · simp [extendedChar]
  · rcases hcase with ⟨hs2, ms2, hps, hhs, hms⟩ | ⟨ms2, hps, -, hms⟩ | ⟨hps, -, -⟩
    · rw [hps] at hp
      rcases List.mem_cons.mp hp with rfl | hp
      · exact seg _ _ hhs c hcp
      rcases List.mem_cons.mp hp with rfl | hp
      · exact seg _ _ hms c hcp
      rcases List.mem_cons.mp hp with rfl | hp
      · exact hst c hcp
      simp at hp
    · rw [hps] at hp
      rcases List.mem_cons.mp hp with rfl | hp
      · exact seg _ _ hms c hcp
      rcases List.mem_cons.mp hp with rfl | hp
      · exact hst c hcp
      simp at hp
    · rw [hps] at hp
      rcases List.mem_cons.mp hp with rfl | hp
      · exact hst c hcp
      simp at hp

/-- The sub-hour round trip, shared by the round-trip theorems. -/
theorem tc_roundtrip_lt (n : Nat) (h : n < 36000) :
    time_conversion (time_conversion2 n) = some (n : Int) := by
  rw [time_conversion2_eq_canonicalRender n,
    tc_canonicalRender (n / 600) (n % 600 / 10) (n % 10) (by omega) (by omega),
    if_pos (by omega : ((n / 600 : Nat) : Int) < 60)]
  congr 1
  push_cast
  omega

/-! ### The claims -/

/-- C1: every time string accepted by parse decomposes, along its colon
split of 1, 2 or 3 segments, into hours, minutes and a final
seconds.tenths segment; the hours and minutes values are exactly what
Python int returns on those segments, the seconds and tenths values are
exactly what Python int returns on the two '.'-split halves of the final
segment, all are in range, and the returned value equals
hours*36000 + minutes*600 + seconds*10 + tenths and is non-negative; in
particular parse "1:02:33.4" = 37534, parse "2:05.1" = 1251 and
parse "59.9" = 599. -/
theorem tc_parse_value (s : List Char) (v : Int) (h : time_conversion s = some v) :
    (0 ≤ v ∧
      ∃ hh mm : Int, ∃ st ss ts : List Char, ∃ sec t : Int,
        ((∃ hs ms, splitOnChar ':' s = [hs, ms, st] ∧
            pyInt hs = some hh ∧ pyInt ms = some mm) ∨
          (∃ ms, splitOnChar ':' s = [ms, st] ∧ hh = 0 ∧ pyInt ms = some mm) ∨
          (splitOnChar ':' s = [st] ∧ hh = 0 ∧ mm = 0)) ∧
        splitOnChar '.' st = [ss, ts] ∧ pyInt ss = some sec ∧ pyInt ts = some t ∧
        0 ≤ hh ∧ 0 ≤ mm ∧ mm < 60 ∧ 0 ≤ sec ∧ sec < 60 ∧ 0 ≤ t ∧ t < 10 ∧
        v = hh * 36000 + mm * 600 + sec * 10 + t) ∧
    time_conversion (pyStr "1:02:33.4") = some 37534 ∧
    time_conversion (pyStr "2:05.1") = some 1251 ∧
    time_conversion (pyStr "59.9") = some 599 := by
  refine ⟨?_, by decide, by decide, by decide⟩
  obtain ⟨hh, m, st, hcase, hwst⟩ := time_conversion_some_inv s v h
  obtain ⟨ss, ts, sec, t, hsp, hss, hts, q1, q2, q3, q4, q5, q6, q7, q8⟩ :=
    withSecTenth_some_inv hh m st v hwst
  exact ⟨by omega, hh, m, st, ss, ts, sec, t, hcase, hsp, hss, hts,
    q1, q2, q3, q4, q5, q6, q7, q8⟩

/-- Witness for C1 at the concrete input "59.9". -/
theorem tc_parse_value_w :
    (0 ≤ (599 : Int) ∧
      ∃ hh mm : Int, ∃ st ss ts : List Char, ∃ sec t : Int,
        ((∃ hs ms, splitOnChar ':' (pyStr "59.9") = [hs, ms, st] ∧
            pyInt hs = some hh ∧ pyInt ms = some mm) ∨
          (∃ ms, splitOnChar ':' (pyStr "59.9") = [ms, st] ∧ hh = 0 ∧ pyInt ms = some mm) ∨
          (splitOnChar ':' (pyStr "59.9") = [st] ∧ hh = 0 ∧ mm = 0)) ∧
        splitOnChar '.' st = [ss, ts] ∧ pyInt ss = some sec ∧ pyInt ts = some t ∧
        0 ≤ hh ∧ 0 ≤ mm ∧ mm < 60 ∧ 0 ≤ sec ∧ sec < 60 ∧ 0 ≤ t ∧ t < 10 ∧
        (599 : Int) = hh * 36000 + mm * 600 + sec * 10 + t) ∧
    time_conversion (pyStr "1:02:33.4") = some 37534 ∧
    time_conversion (pyStr "2:05.1") = some 1251 ∧
    time_conversion (pyStr "59.9") = some 599 :=
  tc_parse_value (pyStr "59.9") 599 (by decide)

/-- C2: parse fails (with the single uniform error) exactly when the
spec-worded validity conditions fail: wrong colon-segment count, final
segment not splitting on '.' into two parts, a non-integer segment (by
Python int), or an out-of-range seconds, tenths, minutes or hours value;
in particular "60.0", "1:60:00.0", "abc.0", "1.23" and "" all fail. -/
theorem tc_invalid_iff (s : List Char) :
    (time_conversion s = none ↔ specValid s = false) ∧
    time_conversion (pyStr "60.0") = none ∧
    time_conversion (pyStr "1:60:00.0") = none ∧
    time_conversion (pyStr "abc.0") = none ∧
    time_conversion (pyStr "1.23") = none ∧
    time_conversion (pyStr "") = none :=
  ⟨tc_none_iff_specValid_false s, by decide, by decide, by decide, by decide, by decide⟩

/-- C3: format computes minutes = n div 600, seconds = (n mod 600) div 10,
tenths = n mod 10, rendering "M:SS.T" (seconds zero-padded to two digits)
when minutes is positive and "S.T" otherwise, never failing; in
particular format 599 = "59.9" and format 0 = "0.0". -/
theorem tc2_spec (n : Nat) :
    time_conversion2 n =
      (if 0 < n / 600 then
        natRender (n / 600) ++ ':' :: (padSeconds (n % 600 / 10) ++ '.' :: natRender (n % 10))
      else natRender (n % 600 / 10) ++ '.' :: natRender (n % 10)) ∧
    (∀ sec : Nat, sec < 60 → (padSeconds sec).length = 2) ∧
    time_conversion2 599 = pyStr "59.9" ∧
    time_conversion2 0 = pyStr "0.0" := by
  refine ⟨rfl, ?_, by decide, by decide⟩
  intro sec hsec
  unfold padSeconds
  by_cases h10 : sec < 10
  · rw [if_pos h10, natRender_lt sec h10]
    rfl
  · rw [if_neg h10, natRender_ge sec (by omega), natRender_lt (sec / 10) (by omega)]
    rfl

/-- C4, counterexample: the integer-to-string-to-integer round trip fails
at 36000 (one hour): format 36000 = "60:00.0" and parse rejects a minutes
value of 60, so parse (format 36000) does not return 36000. -/
theorem roundtrip_fails_at_36000 :
    time_conversion (time_conversion2 36000) = none ∧
    time_conversion2 36000 = pyStr "60:00.0" := by decide

/-- C4, amended: the round trip parse (format n) = n holds for every
non-negative integer n strictly below 36000 (the sub-hour range), not for
every non-negative integer. -/
theorem roundtrip_subhour (n : Nat) (h : n < 36000) :
    time_conversion (time_conversion2 n) = some (n : Int) :=
  tc_roundtrip_lt n h

/-- Witness for the amended C4 at the concrete input 1251. -/
theorem roundtrip_subhour_w :
    time_conversion (time_conversion2 1251) = some ((1251 : Nat) : Int) :=
  roundtrip_subhour 1251 (by decide)

/-- C5: a valid canonical time string round-trips: when s is canonical
(minimal segments, canonical digit rendering) and parse s succeeds with
value v, format v returns exactly s. -/
theorem format_parse_canonical (s : List Char) (v : Int) (hcan : IsCanonical s)
    (h : time_conversion s = some v) : time_conversion2 v.toNat = s := by
  obtain ⟨m, sec, t, hsec, ht, rfl⟩ := hcan
  rw [tc_canonicalRender m sec t hsec ht] at h
  by_cases hm : (m : Int) < 60
  · rw [if_pos hm] at h
    have hv := Option.some.inj h
    have hm60 : m < 60 := by omega
    have hvn : v.toNat = m * 600 + sec * 10 + t := by omega
    rw [hvn, time_conversion2_eq_canonicalRender]
    have e1 : (m * 600 + sec * 10 + t) / 600 = m := by omega
    have e2 : (m * 600 + sec * 10 + t) % 600 / 10 = sec := by omega
    have e3 : (m * 600 + sec * 10 + t) % 10 = t := by omega
    rw [e1, e2, e3]
  · rw [if_neg hm] at h
    exact absurd h (by simp)

/-- Witness for C5 at the concrete canonical input "59.9". -/
theorem format_parse_canonical_w : time_conversion2 (Int.toNat 599) = pyStr "59.9" :=
  format_parse_canonical (pyStr "59.9") 599 ⟨0, 59, 9, by decide, by decide, by decide⟩
    (by decide)

/-- C6: format never reconstructs hours: for n of at least 36000 tenths
the emitted minutes field n / 600 exceeds 59 and the minutes-branch
rendering is produced; in particular format 37534 = "62:33.4" even though
parse "1:02:33.4" = 37534. -/
theorem tc2_no_hours (n : Nat) (h : 36000 ≤ n) :
    59 < n / 600 ∧
    time_conversion2 n
      = natRender (n / 600) ++ ':' :: (padSeconds (n % 600 / 10) ++ '.' :: natRender (n % 10)) ∧
    time_conversion2 37534 = pyStr "62:33.4" ∧
    time_conversion (pyStr "1:02:33.4") = some 37534 := by
  refine ⟨by omega, ?_, by decide, by decide⟩
  rw [time_conversion2_eq_canonicalRender]
  unfold canonicalRender
  rw [if_pos (by omega)]

/-- Witness for C6 at the concrete input 37534. -/
theorem tc2_no_hours_w :
    59 < 37534 / 600 ∧
    time_conversion2 37534
      = natRender (37534 / 600) ++ ':'
        :: (padSeconds (37534 % 600 / 10) ++ '.' :: natRender (37534 % 10)) ∧
    time_conversion2 37534 = pyStr "62:33.4" ∧
    time_conversion (pyStr "1:02:33.4") = some 37534 :=
  tc2_no_hours 37534 (by decide)

/-- C7: the four URL builders are pure concatenations of their fixed
templates over the shared base, with the identifiers inserted unescaped
in the documented order; the RT=385698 constant occurs in the results,
calendar and event URLs and not in the analytics URL. -/
theorem url_builders_spec :
    (∀ r t, get_url_analytics r t
      = apiBase ++ pyStr "AnalyticResults?RaceId=" ++ r ++ pyStr "&TypeId=" ++ t) ∧
    (∀ r, get_url_results r = apiBase ++ pyStr "Results?RT=385698&RaceId=" ++ r) ∧
    (∀ s, get_url_calendar s
      = apiBase ++ pyStr "Events?RT=385698&SeasonId=" ++ s ++ pyStr "&Level=-1") ∧
    (∀ e, get_url_event e = apiBase ++ pyStr "Competitions?RT=385698&EventId=" ++ e) ∧
    hasSubstr (pyStr "RT=385698") (get_url_results (pyStr "123")) = true ∧
    hasSubstr (pyStr "RT=385698") (get_url_calendar (pyStr "2425")) = true ∧
    hasSubstr (pyStr "RT=385698") (get_url_event (pyStr "456")) = true ∧
    hasSubstr (pyStr "RT=385698") (get_url_analytics (pyStr "123") (pyStr "STTM")) = false ∧
    get_url_analytics (pyStr "123") (pyStr "STTM")
      = pyStr "https://www.biathlonresults.com/modules/sportapi/api/AnalyticResults?RaceId=123&TypeId=STTM" := by
  refine ⟨?_, ?_, ?_, ?_, by decide, by decide, by decide, by decide, by decide⟩
  · intro r t
    unfold get_url_analytics
    rw [show apiBase ++ pyStr "AnalyticResults?RaceId="
      = pyStr "https://www.biathlonresults.com/modules/sportapi/api/AnalyticResults?RaceId="
      from by decide]
  · intro r
    unfold get_url_results
    rw [show apiBase ++ pyStr "Results?RT=385698&RaceId="
      = pyStr "https://www.biathlonresults.com/modules/sportapi/api/Results?RT=385698&RaceId="
      from by decide]
  · intro s
    unfold get_url_calendar
    rw [show apiBase ++ pyStr "Events?RT=385698&SeasonId="
      = pyStr "https://www.biathlonresults.com/modules/sportapi/api/Events?RT=385698&SeasonId="
      from by decide]
  · intro e
    unfold get_url_event
    rw [show apiBase ++ pyStr "Competitions?RT=385698&EventId="
      = pyStr "https://www.biathlonresults.com/modules/sportapi/api/Competitions?RT=385698&EventId="
      from by decide]

/-- C8: over the modelled transport, fetch fails with requestFailed
exactly on a transport failure or a non-2xx status, fails with
invalidResponse exactly on a 2xx response whose body is not JSON, returns
the decoded value unchanged exactly on a 2xx JSON response, and these
three outcomes are exhaustive. -/
theorem get_json_trichotomy (J : Type) (o : GetOutcome J) :
    (get_json o = Except.error FetchError.requestFailed ↔
      o = GetOutcome.failure ∨
        ∃ st b, o = GetOutcome.response st b ∧ is2xx st = false) ∧
    (get_json o = Except.error FetchError.invalidResponse ↔
      ∃ st, o = GetOutcome.response st none ∧ is2xx st = true) ∧
    (∀ j : J, get_json o = Except.ok j ↔
      ∃ st, o = GetOutcome.response st (some j) ∧ is2xx st = true) ∧
    (get_json o = Except.error FetchError.requestFailed ∨
      get_json o = Except.error FetchError.invalidResponse ∨
      ∃ j, get_json o = Except.ok j) := by
  rcases o with _ | ⟨st, b⟩
  · refine ⟨by simp [get_json], by simp [get_json], ?_, Or.inl rfl⟩
    intro j
    simp [get_json]
  · by_cases h2 : is2xx st = true
    · rcases b with _ | j
      · refine ⟨by simp [get_json, h2], by simp [get_json, h2], ?_, Or.inr (Or.inl ?_)⟩
        · intro j
          simp [get_json, h2]
        · simp [get_json, h2]
      · refine ⟨by simp [get_json, h2], by simp [get_json, h2], ?_,
          Or.inr (Or.inr ⟨j, by simp [get_json, h2]⟩)⟩
        intro j2
        simp only [get_json, if_pos h2]
        constructor
        · intro hj
          have hj2 := Except.ok.inj hj
          subst hj2
          exact ⟨st, rfl, h2⟩
        · rintro ⟨st2, heq, -⟩
          have hj2 := Option.some.inj (GetOutcome.response.inj heq).2
          subst hj2
          rfl
    · refine ⟨?_, by simp [get_json, h2], ?_, Or.inl ?_⟩
      · simp only [get_json, if_neg h2]
        simp [h2]
      · intro j
        simp [get_json, h2]
      · simp [get_json, h2]

/-- C9, counterexample: parse accepts "+59.9", which contains the sign
character '+', a character that is neither an ASCII digit nor one of the
separators ':' and '.'. -/
theorem tc_accepts_plus_sign :
    time_conversion (pyStr "+59.9") = some 599 ∧ '+' ∈ pyStr "+59.9" ∧
      '+'.isDigit = false ∧ '+' ≠ ':' ∧ '+' ≠ '.' := by decide

/-- C9, amended and restricted to ASCII input (where the Python int
model is exact; the source additionally accepts non-ASCII digits and
whitespace): an ASCII string containing any character beyond ASCII
digits, the separators ':' and '.', and the extra characters Python int
tolerates inside a segment (surrounding ASCII whitespace, a sign,
digit-separating underscores) fails. -/
theorem tc_char_filter (s : List Char) (_hascii : ∀ c ∈ s, c.toNat < 128)
    (c : Char) (hc : c ∈ s) (hbad : extendedChar c = false) :
    time_conversion s = none := by
  rcases hv : time_conversion s with _ | v
  · rfl
  · exact absurd (time_conversion_chars s v hv c hc) (by simp [hbad])

/-- Witness for the amended C9 at the concrete ASCII input "a.0". -/
theorem tc_char_filter_w : time_conversion (pyStr "a.0") = none :=
  tc_char_filter (pyStr "a.0") (by decide) 'a' (by decide) (by decide)

/-- C10: for every n below 36000 the round trip parse (format n) succeeds
and returns n, the emitted minutes field n / 600 being below 60 and hence
accepted by parse's range check. -/
theorem roundtrip_subhour_minutes (n : Nat) (h : n < 36000) :
    time_conversion (time_conversion2 n) = some (n : Int) ∧ n / 600 < 60 :=
  ⟨tc_roundtrip_lt n h, by omega⟩

/-- Witness for C10 at the concrete input 599. -/
theorem roundtrip_subhour_minutes_w :
    time_conversion (time_conversion2 599) = some ((599 : Nat) : Int) ∧ 599 / 600 < 60 :=
  roundtrip_subhour_minutes 599 (by decide)
